import Mathlib

/-!
Verification development for the paxos-rs repository.

This file gives a shallow embedding of the parts of the source that the
checked properties are about:

* src/commands.rs : the Command enum and its JSON wire encoding
  (tagged by messageName, ballots as two-element arrays, bytes as u8 arrays);
* src/liveness.rs : the Liveness wrapper and its leader-election Timeout;
* src/statemachine.rs : the StateMachineReplica wrapper that drains in-order
  decisions into a user state machine;
* src/multipaxos.rs : the instance-chained MultiPaxos message handlers.

Parts of the repository that the handlers depend on but whose sources are
absent (the SlotWindow / DecisionSet of window.rs, the Ballot declaration of
lib.rs, the per-instance PaxosInstance of the algo module, the messages,
state, timer and config modules) are modelled from the specification, as
noted on each such definition.
-/

/-! ## Basic data model (spec section 3; lib.rs is absent from src) -/

/-- Modelled from the spec: bytes are sequences of unsigned 8-bit integers
(the Bytes payload type; the core never inspects payload contents). -/
abbrev Byte := Fin 256

/-- Opaque byte-sequence value type. -/
abbrev Bytes := List Byte

/-- Modelled from the spec: NodeId is a small unsigned integer, stable for
the lifetime of a configuration. -/
abbrev NodeId := Nat

/-- Modelled from the spec: a Slot is a monotonic non-negative integer naming
a position in the agreed log. -/
abbrev Slot := Nat

/-- Modelled from the spec: a Ballot is an ordered pair of round and node id
(the Ballot tuple struct of lib.rs, absent from src; its wire form, a
two-element array, is pinned by the serialization tests in commands.rs). -/
structure Ballot where
  round : Nat
  node : Nat
deriving DecidableEq, Repr

/-- The Command enum of src/commands.rs: RPC commands sent between replicas.
Each variant is a struct variant with a single field named payload. -/
inductive Command where
  | proposal (payload : Bytes)
  | prepare (payload : Ballot)
  | promise (payload : NodeId × Ballot × List (Slot × Ballot × Bytes))
  | accept (payload : Ballot × List (Slot × Bytes))
  | reject (payload : NodeId × Ballot × Ballot)
  | accepted (payload : NodeId × Ballot × List Slot)
  | resolution (payload : Ballot × List (Slot × Bytes))
  | catchup (payload : NodeId × List Slot)
deriving DecidableEq, Repr

/-- The CommandMetas newtype of src/commands.rs: an opaque byte bag attached
to every command and carried through unchanged. -/
abbrev CommandMetas := Bytes

/-! ## JSON wire model (src/commands.rs serde derivation)

The Command enum derives Serialize and Deserialize with the serde attribute
tagging the variant under the messageName key.  We model the resulting JSON
documents with a small JSON AST (numbers are unsigned integers, which covers
every number the schema produces: u8 bytes, u32 rounds and node ids, u64
slots). -/

/-- JSON AST for the wire format. -/
inductive Json where
  | num (n : Nat)
  | str (s : String)
  | arr (elems : List Json)
  | obj (fields : List (String × Json))
deriving Repr

/-- Encoding of a single byte: serde serializes u8 as a JSON number. -/
def encByte (b : Byte) : Json := .num b.val

/-- Encoding of a Bytes payload: an array of unsigned 8-bit integers
(pinned by the it_serializes_command_promise test in commands.rs). -/
def encBytes (bs : Bytes) : Json := .arr (bs.map encByte)

/-- Modelled from the spec: a ballot is always serialized as the two-element
array of round and node id (pinned by the tests in commands.rs; the derive
itself lives on the absent Ballot declaration of lib.rs). -/
def encBallot (b : Ballot) : Json := .arr [.num b.round, .num b.node]

/-- Encoding of a slot-value pair as a two-element array. -/
def encSlotValue (p : Slot × Bytes) : Json := .arr [.num p.1, encBytes p.2]

/-- Encoding of one accepted entry of a Promise payload. -/
def encAcceptedEntry (p : Slot × Ballot × Bytes) : Json :=
  .arr [.num p.1, encBallot p.2.1, encBytes p.2.2]

/-- Internally tagged form produced by the serde attribute on Command:
an object holding the messageName tag and the payload field. -/
def taggedCommand (nm : String) (payload : Json) : Json :=
  .obj [("messageName", .str nm), ("payload", payload)]

/-- Serialization of a Command to JSON, following the serde derivation on
src/commands.rs (internally tagged struct variants, tuples as arrays). -/
def encodeCommand : Command → Json
  | .proposal p => taggedCommand "Proposal" (encBytes p)
  | .prepare b => taggedCommand "Prepare" (encBallot b)
  | .promise (n, b, acc) =>
      taggedCommand "Promise" (.arr [.num n, encBallot b, .arr (acc.map encAcceptedEntry)])
  | .accept (b, svs) =>
      taggedCommand "Accept" (.arr [encBallot b, .arr (svs.map encSlotValue)])
  | .reject (n, prop, pre) =>
      taggedCommand "Reject" (.arr [.num n, encBallot prop, encBallot pre])
  | .accepted (n, b, slots) =>
      taggedCommand "Accepted" (.arr [.num n, encBallot b, .arr (slots.map Json.num)])
  | .resolution (b, svs) =>
      taggedCommand "Resolution" (.arr [encBallot b, .arr (svs.map encSlotValue)])
  | .catchup (n, slots) =>
      taggedCommand "Catchup" (.arr [.num n, .arr (slots.map Json.num)])

/-- Decoding of an unsigned integer. -/
def decNat : Json → Option Nat
  | .num n => some n
  | _ => none

/-- Decoding of a byte: a JSON number in the u8 range. -/
def decByte : Json → Option Byte
  | .num n => if h : n < 256 then some ⟨n, h⟩ else none
  | _ => none

/-- Element-wise decoding of a JSON array body. -/
def decListWith (f : Json → Option α) : List Json → Option (List α)
  | [] => some []
  | j :: js => do
      let a ← f j
      let as ← decListWith f js
      pure (a :: as)

/-- Decoding of a JSON array with an element decoder. -/
def decArr (f : Json → Option α) : Json → Option (List α)
  | .arr js => decListWith f js
  | _ => none

/-- Decoding of a Bytes payload. -/
def decBytes (j : Json) : Option Bytes := decArr decByte j

/-- Decoding of a ballot from its two-element array form. -/
def decBallot : Json → Option Ballot
  | .arr [r, n] => do
      let rv ← decNat r
      let nv ← decNat n
      pure ⟨rv, nv⟩
  | _ => none

/-- Decoding of a slot-value pair. -/
def decSlotValue : Json → Option (Slot × Bytes)
  | .arr [s, v] => do
      let sv ← decNat s
      let vv ← decBytes v
      pure (sv, vv)
  | _ => none

/-- Decoding of one accepted entry of a Promise payload. -/
def decAcceptedEntry : Json → Option (Slot × Ballot × Bytes)
  | .arr [s, b, v] => do
      let sv ← decNat s
      let bv ← decBallot b
      let vv ← decBytes v
      pure (sv, bv, vv)
  | _ => none

/-- Field lookup in a JSON object, first binding wins (serde semantics for
the tag and payload fields at the AST level). -/
def lookupField : List (String × Json) → String → Option Json
  | [], _ => none
  | (k, v) :: rest, key => if k = key then some v else lookupField rest key

/-- Decoding of a payload given the messageName tag. -/
def decPayload (nm : String) (p : Json) : Option Command :=
  if nm = "Proposal" then do
    let v ← decBytes p
    pure (.proposal v)
  else if nm = "Prepare" then do
    let b ← decBallot p
    pure (.prepare b)
  else if nm = "Promise" then
    match p with
    | .arr [n, b, acc] => do
        let nv ← decNat n
        let bv ← decBallot b
        let av ← decArr decAcceptedEntry acc
        pure (.promise (nv, bv, av))
    | _ => none
  else if nm = "Accept" then
    match p with
    | .arr [b, svs] => do
        let bv ← decBallot b
        let sv ← decArr decSlotValue svs
        pure (.accept (bv, sv))
    | _ => none
  else if nm = "Reject" then
    match p with
    | .arr [n, b1, b2] => do
        let nv ← decNat n
        let p1 ← decBallot b1
        let p2 ← decBallot b2
        pure (.reject (nv, p1, p2))
    | _ => none
  else if nm = "Accepted" then
    match p with
    | .arr [n, b, ss] => do
        let nv ← decNat n
        let bv ← decBallot b
        let sv ← decArr decNat ss
        pure (.accepted (nv, bv, sv))
    | _ => none
  else if nm = "Resolution" then
    match p with
    | .arr [b, svs] => do
        let bv ← decBallot b
        let sv ← decArr decSlotValue svs
        pure (.resolution (bv, sv))
    | _ => none
  else if nm = "Catchup" then
    match p with
    | .arr [n, ss] => do
        let nv ← decNat n
        let sv ← decArr decNat ss
        pure (.catchup (nv, sv))
    | _ => none
  else none

/-- Deserialization of a Command from JSON: read the messageName tag and the
payload field off the object and dispatch on the tag. -/
def decodeCommand : Json → Option Command
  | .obj fields => do
      let tag ← lookupField fields "messageName"
      let payload ← lookupField fields "payload"
      match tag with
      | .str nm => decPayload nm payload
      | _ => none
  | _ => none

/-! ## Liveness wrapper (src/liveness.rs)

The Liveness wrapper owns its inner replica; here the inner replica is left
abstract and the calls into it (forwarding of a received command, a
propose_leadership call, an inner tick call) are recorded as outputs.  The
monotonic clock is an explicit natural-number parameter in milliseconds; the
Duration of two seconds in Liveness::new is 2000. -/

/-- The Timeout struct of src/liveness.rs: an optional timestamp of the
latest message and the timeout duration (milliseconds). -/
structure Timeout where
  latestMessage : Option Nat
  timeout : Nat
deriving DecidableEq, Repr

/-- Timeout::new. -/
def Timeout.new (d : Nat) : Timeout := ⟨none, d⟩

/-- Timeout::clear: forget the latest message timestamp. -/
def Timeout.clear (t : Timeout) : Timeout := { t with latestMessage := none }

/-- Timeout::bump: set the latest message timestamp to now. -/
def Timeout.bump (t : Timeout) (now : Nat) : Timeout :=
  { t with latestMessage := some now }

/-- Timeout::lapsed: true when a latest message exists and now is strictly
past it by more than the full timeout. -/
def Timeout.lapsed (t : Timeout) (now : Nat) : Bool :=
  match t.latestMessage with
  | some latest => decide (now > latest + t.timeout)
  | none => false

/-- Timeout::near: true when a latest message exists and now is strictly
past it by more than half the timeout. -/
def Timeout.near (t : Timeout) (now : Nat) : Bool :=
  match t.latestMessage with
  | some latest => decide (now > latest + t.timeout / 2)
  | none => false

/-- The leader-election timer of a freshly constructed Liveness
(Liveness::new: Timeout::new of a two-second Duration). -/
def livenessNewTimer : Timeout := Timeout.new 2000

/-- True exactly for the commands whose receipt bumps the leader-election
timer: every command other than Proposal and Catchup (the match in
Liveness::receive). -/
def livenessBumps : Command → Bool
  | .proposal _ => false
  | .catchup _ => false
  | _ => true

/-- Discriminator for the Proposal variant. -/
def Command.isProposal : Command → Bool
  | .proposal _ => true
  | _ => false

/-- Discriminator for the Catchup variant. -/
def Command.isCatchup : Command → Bool
  | .catchup _ => true
  | _ => false

/-- Liveness::receive: bump the leader-election timeout unless the command is
a Proposal or a Catchup, then forward the command with its metas to the inner
replica (the forwarded pair is returned as the call record). -/
def livenessReceive (now : Nat) (cmd : Command) (metas : CommandMetas)
    (t : Timeout) : Timeout × (Command × CommandMetas) :=
  (if livenessBumps cmd then t.bump now else t, (cmd, metas))

/-- Calls a Liveness tick makes into its inner replica, in order. -/
inductive LivenessCall where
  | propose (metas : CommandMetas)
  | innerTick (metas : CommandMetas)
deriving DecidableEq, Repr

/-- Liveness::tick: check near when the inner replica is leader and lapsed
otherwise; on firing, call propose_leadership on the inner replica and clear
the timer; in every case end by calling the inner tick. -/
def livenessTick (now : Nat) (isLeader : Bool) (metas : CommandMetas)
    (t : Timeout) : Timeout × List LivenessCall :=
  let fired := if isLeader then t.near now else t.lapsed now
  if fired then
    (t.clear, [.propose metas, .innerTick metas])
  else
    (t, [.innerTick metas])

/-- True when a list of inner-replica calls contains a propose_leadership. -/
def proposedIn (calls : List LivenessCall) : Bool :=
  calls.any fun c => match c with
    | .propose _ => true
    | .innerTick _ => false

/-- One externally driven event on a Liveness wrapper: a periodic tick (with
the inner leadership status at that moment) or an inbound command. -/
inductive LivenessEvent where
  | tick (now : Nat) (isLeader : Bool) (metas : CommandMetas)
  | recv (now : Nat) (cmd : Command) (metas : CommandMetas)
deriving DecidableEq, Repr

/-- Whether an event bumps the leader-election timer: ticks never do, and a
received command does exactly when livenessBumps says so. -/
def eventBumps : LivenessEvent → Bool
  | .tick _ _ _ => false
  | .recv _ cmd _ => livenessBumps cmd

/-- Run a sequence of events through the Liveness wrapper, reporting the
final timer and whether any tick invoked propose_leadership. -/
def livenessRun : List LivenessEvent → Timeout → Timeout × Bool
  | [], t => (t, false)
  | .tick now leader m :: es, t =>
      let r := livenessTick now leader m t
      let rest := livenessRun es r.1
      (rest.1, proposedIn r.2 || rest.2)
  | .recv now cmd m :: es, t =>
      livenessRun es (livenessReceive now cmd m t).1

/-! ## StateMachineReplica wrapper (src/statemachine.rs)

StateMachineReplica::receive forwards the command to the inner replica and
then runs try_execute_slots, which iterates the decisions view of the inner
replica from next_execution_slot, executes each non-empty decision on the
user state machine and advances next_execution_slot past every enumerated
slot.

The inner replica and its SlotWindow (window.rs is absent from src) are
modelled from the spec: the decision state after the inner receive is a list
indexed by slot, with entry none for an unresolved slot and some v for a slot
resolved with value v (v may be empty for gap-fill no-ops).  The range view
of the DecisionSet enumerates, in slot order, the contiguous run of resolved
slots starting at the lower bound and stops at the first slot that is not
resolved, as section 4.5 of the spec requires and as the
resolve_executes_decisions test of statemachine.rs pins (slots after a hole
are not yielded). -/

/-- Decision state of the inner replica: entry at index s is some v when slot
s is resolved with value v, and none when slot s is not resolved.  Slots past
the end of the list are not resolved. -/
abbrev Decisions := List (Option Bytes)

/-- Whether a slot is resolved in a decision state. -/
def resolvedAt (dec : Decisions) (s : Nat) : Bool :=
  match dec[s]? with
  | some (some _) => true
  | _ => false

/-- Modelled from the spec: the contiguous run of resolved slots of the
suffix l of the decision state, where lo names the slot at the head of l.
Enumeration stops at the first unresolved slot. -/
def resolvedRun : Decisions → Nat → List (Nat × Bytes)
  | [], _ => []
  | none :: _, _ => []
  | some v :: rest, lo => (lo, v) :: resolvedRun rest (lo + 1)

/-- Modelled from the spec: the decisions range view from slot lo upward, in
slot order (DecisionSet::range of the absent window.rs). -/
def decisionsFrom (dec : Decisions) (lo : Nat) : List (Nat × Bytes) :=
  resolvedRun (dec.drop lo) lo

/-- The StateMachineReplica wrapper state that the claims concern: the next
slot to hand to the user state machine. -/
structure SMReplica where
  nextExecutionSlot : Nat
deriving DecidableEq, Repr

/-- StateMachineReplica::try_execute_slots: collect the decisions from
next_execution_slot, execute each non-empty decision in order on the user
state machine (the returned trace), and set next_execution_slot one past
each enumerated slot (the foldl mirrors the loop-carried next_slot). -/
def tryExecuteSlots (dec : Decisions) (s : SMReplica) :
    SMReplica × List (Nat × Bytes) :=
  let decided := decisionsFrom dec s.nextExecutionSlot
  let nextSlot := decided.foldl (fun _ p => p.1 + 1) s.nextExecutionSlot
  (⟨nextSlot⟩, decided.filter (fun p => !p.2.isEmpty))

/-- StateMachineReplica::receive: forward the command and metas to the inner
replica (the forwarded pair is the last component), then try_execute_slots
against the decisions view that the inner replica exposes after that
forwarded receive. -/
def smReceive (dec : Decisions) (cmd : Command) (metas : CommandMetas)
    (s : SMReplica) : SMReplica × List (Nat × Bytes) × (Command × CommandMetas) :=
  let r := tryExecuteSlots dec s
  (r.1, r.2, (cmd, metas))

/-- A sequence of receive calls on a StateMachineReplica: each element is the
decision state exposed by the inner replica after that call forwards its
command; the trace accumulates the executed slot-value pairs in order. -/
def smRun : List Decisions → SMReplica → SMReplica × List (Nat × Bytes)
  | [], s => (s, [])
  | d :: rest, s =>
      let r := tryExecuteSlots d s
      let k := smRun rest r.1
      (k.1, r.2 ++ k.2)

/-! ## MultiPaxos (src/multipaxos.rs)

MultiPaxos chains single-decree Paxos instances: a current instance number,
one PaxosInstance for that number, a user state machine holding the value
applied at each past instance, persisted recovery state, and the
retransmit and prepare timers.  The message handlers are the body of
Sink::start_send.

The algo module (PaxosInstance and the Prepare, Promise, Accept, Accepted,
Reject and Resolution message structs), the messages, state, timer and
config modules are absent from src, so their shapes are modelled from the
spec and from how multipaxos.rs uses them; the PaxosInstance transition
functions themselves stay abstract (a PaxosOps bundle over an abstract
per-instance state), since no handler property below depends on their
behaviour. -/

/-- Modelled from the spec: an opaque replicated value (Value of lib.rs). -/
abbrev Value := Bytes

/-- Modelled from the spec: Prepare carries the proposed ballot. -/
abbrev MPrepare := Ballot

/-- Modelled from the spec: Promise carries the promised ballot and the
accepted ballot-value pair when one exists. -/
abbrev MPromise := Ballot × Option (Ballot × Value)

/-- Modelled from the spec: Accept carries the ballot and the value. -/
abbrev MAccept := Ballot × Value

/-- Modelled from the spec: Accepted carries the ballot and the value. -/
abbrev MAccepted := Ballot × Value

/-- Modelled from the spec: Reject carries the proposed and the preempting
ballot. -/
abbrev MReject := Ballot × Ballot

/-- The MultiPaxosMessage enum of the absent messages module, as start_send
matches on it: each protocol message carries its instance number. -/
inductive MPMessage where
  | prepare (inst : Nat) (p : MPrepare)
  | promise (inst : Nat) (p : MPromise)
  | accept (inst : Nat) (a : MAccept)
  | accepted (inst : Nat) (a : MAccepted)
  | reject (inst : Nat) (r : MReject)
  | sync (inst : Nat)
  | catchup (inst : Nat) (v : Value)
deriving DecidableEq, Repr

/-- The State struct persisted by StateHandler (state module, absent from
src): instance, current value, promised and accepted, as persisted by
advance_instance, on_prepare and on_accept. -/
structure PersistedState where
  inst : Nat
  currentValue : Option Value
  promised : Option Ballot
  accepted : Option (Ballot × Value)
deriving DecidableEq, Repr

/-- Transition functions of the per-instance Paxos state machine
(PaxosInstance of the absent algo module), abstract over the instance state
P.  Replies carry the node to answer, mirroring the Reply wrapper. -/
structure PaxosOps (P : Type) where
  init : Option Ballot → Option (Ballot × Value) → P
  receivePrepare : P → NodeId → MPrepare → P × Sum (NodeId × MPromise) (NodeId × MReject)
  receivePromise : P → NodeId → MPromise → P × Option MAccept
  receiveReject : P → NodeId → MReject → P × Option MPrepare
  receiveAccept : P → NodeId → MAccept → P × Sum MAccepted (NodeId × MReject)
  receiveAccepted : P → NodeId → MAccepted → P × Option (Ballot × Value)

/-- The MultiPaxos replica state over an abstract per-instance Paxos state:
the user state machine as a map from instance to applied value, the last
persisted recovery state, the current instance, the live PaxosInstance, the
retransmit timer content and the prepare timer content (an instance paired
with true for a schedule_retry and false for a schedule_timeout). -/
structure MPState (P : Type) where
  stateMachine : List (Nat × Value)
  persisted : Option PersistedState
  inst : Nat
  paxos : P
  retransmit : Option (Nat × Sum MPrepare MAccept)
  prepTimer : Option (Nat × Bool)

/-- ReplicatedState::snapshot of the absent statemachine module of this
generation, modelled as lookup in the applied-value map. -/
def snapshotSM (sm : List (Nat × Value)) (i : Nat) : Option Value :=
  (sm.find? (fun p => p.1 == i)).map (fun p => p.2)

/-- ReplicatedState::apply_value modelled as map update. -/
def applySM (sm : List (Nat × Value)) (i : Nat) (v : Value) : List (Nat × Value) :=
  (i, v) :: sm.filter (fun p => !(p.1 == i))

/-- Checked natural subtraction: models unsigned integer subtraction in the
source, where an underflow is a panic rather than a value. -/
def checkedSub (a b : Nat) : Option Nat :=
  if b ≤ a then some (a - b) else none

/-- MultiPaxos::advance_instance: apply the value at the resolved instance,
move to the next instance, persist the new state, replace the PaxosInstance
with a fresh one and reset both timers. -/
def advanceInstance {P : Type} (ops : PaxosOps P) (st : MPState P)
    (i : Nat) (v : Value) : MPState P :=
  { stateMachine := applySM st.stateMachine i v
    persisted := some ⟨i + 1, some v, none, none⟩
    inst := i + 1
    paxos := ops.init none none
    retransmit := none
    prepTimer := none }

/-- MultiPaxos::new with a loaded persisted state: apply the persisted
current value at the persisted instance when one exists, start at the
persisted instance, and build the PaxosInstance from the persisted promised
and accepted entries. -/
def mpNew {P : Type} (ops : PaxosOps P) (state : PersistedState) : MPState P :=
  { stateMachine :=
      match state.currentValue with
      | some v => applySM [] state.inst v
      | none => []
    persisted := none
    inst := state.inst
    paxos := ops.init state.promised state.accepted
    retransmit := none
    prepTimer := none }

/-- MultiPaxos::on_prepare: ignore other instances; otherwise feed the
PaxosInstance and either persist and reply with a Promise or reply with a
Reject. -/
def onPrepare {P : Type} (ops : PaxosOps P) (st : MPState P)
    (peer inst : Nat) (p : MPrepare) : MPState P × List (NodeId × MPMessage) :=
  if st.inst ≠ inst then (st, [])
  else
    match ops.receivePrepare st.paxos peer p with
    | (px, .inl (replyTo, prom)) =>
        ({ st with
            paxos := px
            persisted :=
              some ⟨st.inst, snapshotSM st.stateMachine inst, some prom.1, prom.2⟩ },
         [(replyTo, .promise st.inst prom)])
    | (px, .inr (replyTo, rej)) =>
        ({ st with paxos := px }, [(replyTo, .reject st.inst rej)])

/-- MultiPaxos::on_promise: ignore other instances; otherwise feed the
PaxosInstance and, when an Accept results, broadcast it to all peers and
schedule its retransmission. -/
def onPromise {P : Type} (ops : PaxosOps P) (peers : List NodeId)
    (st : MPState P) (peer inst : Nat) (pr : MPromise) :
    MPState P × List (NodeId × MPMessage) :=
  if st.inst ≠ inst then (st, [])
  else
    match ops.receivePromise st.paxos peer pr with
    | (px, some acc) =>
        ({ st with paxos := px, retransmit := some (inst, .inr acc) },
         peers.map (fun q => (q, .accept st.inst acc)))
    | (px, none) => ({ st with paxos := px }, [])

/-- MultiPaxos::on_reject: ignore other instances; otherwise feed the
PaxosInstance; when a quorum of rejects yields a new Prepare, broadcast it
and schedule its retransmission, else reset the retransmit timer; in either
case schedule a prepare retry. -/
def onReject {P : Type} (ops : PaxosOps P) (peers : List NodeId)
    (st : MPState P) (peer inst : Nat) (r : MReject) :
    MPState P × List (NodeId × MPMessage) :=
  if st.inst ≠ inst then (st, [])
  else
    match ops.receiveReject st.paxos peer r with
    | (px, some prep) =>
        ({ st with
            paxos := px
            retransmit := some (inst, .inl prep)
            prepTimer := some (inst, true) },
         peers.map (fun q => (q, .prepare st.inst prep)))
    | (px, none) =>
        ({ st with
            paxos := px
            retransmit := none
            prepTimer := some (inst, true) }, [])

/-- MultiPaxos::on_accept: ignore other instances; otherwise feed the
PaxosInstance and either persist and broadcast an Accepted or reply with a
Reject; in either case schedule the prepare timeout. -/
def onAccept {P : Type} (ops : PaxosOps P) (peers : List NodeId)
    (st : MPState P) (peer inst : Nat) (a : MAccept) :
    MPState P × List (NodeId × MPMessage) :=
  if st.inst ≠ inst then (st, [])
  else
    match ops.receiveAccept st.paxos peer a with
    | (px, .inl acc) =>
        ({ st with
            paxos := px
            persisted :=
              some ⟨st.inst, snapshotSM st.stateMachine inst, some acc.1,
                some (acc.1, acc.2)⟩
            prepTimer := some (inst, false) },
         peers.map (fun q => (q, .accepted st.inst acc)))
    | (px, .inr (replyTo, rej)) =>
        ({ st with paxos := px, prepTimer := some (inst, false) },
         [(replyTo, .reject st.inst rej)])

/-- MultiPaxos::on_accepted: ignore other instances; otherwise feed the
PaxosInstance and advance to the next instance when a Resolution results. -/
def onAccepted {P : Type} (ops : PaxosOps P) (st : MPState P)
    (peer inst : Nat) (a : MAccepted) : MPState P × List (NodeId × MPMessage) :=
  if st.inst ≠ inst then (st, [])
  else
    match ops.receiveAccepted st.paxos peer a with
    | (px, some bv) => (advanceInstance ops { st with paxos := px } inst bv.2, [])
    | (px, none) => ({ st with paxos := px }, [])

/-- MultiPaxos::on_sync: when the current instance is at most the instance
known to the requesting peer, do nothing; otherwise look up the state
machine snapshot at the current instance minus one and, when a value is
there, answer with a Catchup carrying the current instance and that value.
The subtraction is the checked form: none models the underflow panic. -/
def onSync {P : Type} (st : MPState P) (peer inst : Nat) :
    Option (MPState P × List (NodeId × MPMessage)) :=
  if st.inst ≤ inst then some (st, [])
  else
    match checkedSub st.inst 1 with
    | none => none
    | some prev =>
        match snapshotSM st.stateMachine prev with
        | some v => some (st, [(peer, .catchup st.inst v)])
        | none => some (st, [])

/-- MultiPaxos::on_catchup: accept the catchup value only when its instance
is strictly beyond the current one, and then advance to it through
advance_instance at the catchup instance minus one.  The subtraction is the
checked form: none models the underflow panic. -/
def onCatchup {P : Type} (ops : PaxosOps P) (st : MPState P)
    (inst : Nat) (v : Value) : Option (MPState P × List (NodeId × MPMessage)) :=
  if inst > st.inst then
    match checkedSub inst 1 with
    | none => none
    | some i => some (advanceInstance ops st i v, [])
  else some (st, [])

/-- Sink::start_send for MultiPaxos: dispatch a cluster message from a peer
to the matching handler.  A some result is the Ok return of the source; a
none would be a panic inside a handler. -/
def startSend {P : Type} (ops : PaxosOps P) (peers : List NodeId)
    (st : MPState P) (peer : NodeId) (msg : MPMessage) :
    Option (MPState P × List (NodeId × MPMessage)) :=
  match msg with
  | .prepare i p => some (onPrepare ops st peer i p)
  | .promise i p => some (onPromise ops peers st peer i p)
  | .accept i a => some (onAccept ops peers st peer i a)
  | .accepted i a => some (onAccepted ops st peer i a)
  | .reject i r => some (onReject ops peers st peer i r)
  | .sync i => onSync st peer i
  | .catchup i v => onCatchup ops st i v

/-- The highest resolved entry of the applied-value map: the entry with the
largest instance, when the map is non-empty. -/
def highestResolvedSM : List (Nat × Value) → Option (Nat × Value)
  | [] => none
  | p :: rest =>
      match highestResolvedSM rest with
      | none => some p
      | some q => if p.1 ≥ q.1 then some p else some q

/-- Trivial instantiation of the abstract per-instance Paxos state, used to
evaluate the handlers on concrete inputs. -/
def trivOps : PaxosOps Unit where
  init := fun _ _ => ()
  receivePrepare := fun _ n p => ((), .inl (n, (p, none)))
  receivePromise := fun _ _ _ => ((), none)
  receiveReject := fun _ _ _ => ((), none)
  receiveAccept := fun _ _ a => ((), .inl a)
  receiveAccepted := fun _ _ _ => ((), none)

/-- Fold of a sequence of Liveness receives (timestamp, command, metas),
keeping the timer state. -/
def receiveAll (events : List (Nat × Command × CommandMetas)) (t : Timeout) : Timeout :=
  events.foldl (fun acc e => (livenessReceive e.1 e.2.1 e.2.2 acc).1) t

/-- A MultiPaxos replica freshly recovered from a persisted state at
instance 3 with a persisted current value: MultiPaxos::new applies the
persisted value at the persisted instance, so the state machine holds slot 3
and nothing below it. -/
def recoveredState : MPState Unit :=
  mpNew trivOps ⟨3, some [(104 : Byte)], none, none⟩

/-! ## Serialization roundtrip lemmas -/

theorem decByte_encByte (b : Byte) : decByte (encByte b) = some b := by
  simp [decByte, encByte, b.isLt]

theorem decListWith_map {α : Type} (f : Json → Option α) (g : α → Json)
    (h : ∀ a, f (g a) = some a) (l : List α) :
    decListWith f (l.map g) = some l := by
  induction l with
  | nil => rfl
  | cons a as ih => simp [decListWith, h, ih]

theorem decBytes_encBytes (bs : Bytes) : decBytes (encBytes bs) = some bs := by
  simp [decBytes, encBytes, decArr, decListWith_map _ _ decByte_encByte]

theorem decBallot_encBallot (b : Ballot) : decBallot (encBallot b) = some b := by
  simp [decBallot, encBallot, decNat]

theorem decSlotValue_encSlotValue (p : Slot × Bytes) :
    decSlotValue (encSlotValue p) = some p := by
  simp [decSlotValue, encSlotValue, decNat, decBytes_encBytes]

theorem decAcceptedEntry_encAcceptedEntry (p : Slot × Ballot × Bytes) :
    decAcceptedEntry (encAcceptedEntry p) = some p := by
  simp [decAcceptedEntry, encAcceptedEntry, decNat, decBallot_encBallot, decBytes_encBytes]

theorem decodeCommand_encodeCommand (c : Command) :
    decodeCommand (encodeCommand c) = some c := by
  cases c with
  | proposal p =>
      simp [encodeCommand, taggedCommand, decodeCommand, lookupField, decPayload,
        decBytes_encBytes]
  | prepare b =>
      simp [encodeCommand, taggedCommand, decodeCommand, lookupField, decPayload,
        decBallot_encBallot]
  | promise p =>
      obtain ⟨n, b, acc⟩ := p
      simp [encodeCommand, taggedCommand, decodeCommand, lookupField, decPayload,
        decNat, decBallot_encBallot, decArr,
        decListWith_map _ _ decAcceptedEntry_encAcceptedEntry]
  | accept p =>
      obtain ⟨b, svs⟩ := p
      simp [encodeCommand, taggedCommand, decodeCommand, lookupField, decPayload,
        decBallot_encBallot, decArr, decListWith_map _ _ decSlotValue_encSlotValue]
  | reject p =>
      obtain ⟨n, b1, b2⟩ := p
      simp [encodeCommand, taggedCommand, decodeCommand, lookupField, decPayload,
        decNat, decBallot_encBallot]
  | accepted p =>
      obtain ⟨n, b, ss⟩ := p
      simp [encodeCommand, taggedCommand, decodeCommand, lookupField, decPayload,
        decNat, decBallot_encBallot, decArr,
        decListWith_map decNat Json.num (fun a => rfl)]
  | resolution p =>
      obtain ⟨b, svs⟩ := p
      simp [encodeCommand, taggedCommand, decodeCommand, lookupField, decPayload,
        decBallot_encBallot, decArr, decListWith_map _ _ decSlotValue_encSlotValue]
  | catchup p =>
      obtain ⟨n, ss⟩ := p
      simp [encodeCommand, taggedCommand, decodeCommand, lookupField, decPayload,
        decNat, decArr, decListWith_map decNat Json.num (fun a => rfl)]

/-! ## Lemmas about the contiguous decisions view -/

theorem resolvedRun_shape (l : Decisions) (lo : Nat) (s : Nat) (bv : Bytes)
    (hp : (s, bv) ∈ resolvedRun l lo) :
    ∃ i, s = lo + i ∧ l[i]? = some (some bv) ∧
      ∀ j, j ≤ i → ∃ w, l[j]? = some (some w) := by
  induction l generalizing lo with
  | nil => simp [resolvedRun] at hp
  | cons hd tl ih =>
    cases hd with
    | none => simp [resolvedRun] at hp
    | some v =>
      rw [resolvedRun] at hp
      rcases List.mem_cons.mp hp with h | h
      · obtain ⟨h1, h2⟩ := Prod.mk.injEq .. ▸ h
        refine ⟨0, by omega, by simp [h2], ?_⟩
        intro j hj
        have hj0 : j = 0 := Nat.le_zero.mp hj
        exact ⟨v, by simp [hj0]⟩
      · obtain ⟨i, hi1, hi2, hi3⟩ := ih (lo + 1) h
        refine ⟨i + 1, by omega, by simpa using hi2, ?_⟩
        intro j hj
        cases j with
        | zero => exact ⟨v, by simp⟩
        | succ j =>
            obtain ⟨w, hw⟩ := hi3 j (Nat.succ_le_succ_iff.mp hj)
            exact ⟨w, by simpa using hw⟩

theorem resolvedRun_stop (l : Decisions) (lo : Nat) (w : Bytes) :
    l[(resolvedRun l lo).length]? ≠ some (some w) := by
  induction l generalizing lo with
  | nil => simp [resolvedRun]
  | cons hd tl ih =>
    cases hd with
    | none => simp [resolvedRun]
    | some v => simpa [resolvedRun] using ih (lo + 1)

theorem resolvedRun_lower (l : Decisions) (lo : Nat) (s : Nat) (bv : Bytes)
    (hp : (s, bv) ∈ resolvedRun l lo) : lo ≤ s := by
  obtain ⟨i, hi, -, -⟩ := resolvedRun_shape l lo s bv hp
  omega

theorem resolvedRun_upper (l : Decisions) (lo : Nat) (s : Nat) (bv : Bytes)
    (hp : (s, bv) ∈ resolvedRun l lo) : s < lo + (resolvedRun l lo).length := by
  induction l generalizing lo with
  | nil => simp [resolvedRun] at hp
  | cons hd tl ih =>
    cases hd with
    | none => simp [resolvedRun] at hp
    | some v =>
      rw [resolvedRun] at hp
      rcases List.mem_cons.mp hp with h | h
      · obtain ⟨h1, -⟩ := Prod.mk.injEq .. ▸ h
        simp only [resolvedRun, List.length_cons]
        omega
      · have := ih (lo + 1) h
        simp only [resolvedRun, List.length_cons]
        omega

theorem resolvedRun_pairwise (l : Decisions) (lo : Nat) :
    (resolvedRun l lo).Pairwise (fun a b => a.1 < b.1) := by
  induction l generalizing lo with
  | nil => simp [resolvedRun]
  | cons hd tl ih =>
    cases hd with
    | none => simp [resolvedRun]
    | some v =>
      rw [resolvedRun, List.pairwise_cons]
      refine ⟨fun b hb => ?_, ih (lo + 1)⟩
      obtain ⟨bs, bbv⟩ := b
      have := resolvedRun_lower tl (lo + 1) bs bbv hb
      show lo < bs
      omega

theorem resolvedRun_foldl (l : Decisions) (lo x : Nat) :
    (resolvedRun l lo).foldl (fun _ p => p.1 + 1) x =
      if resolvedRun l lo = [] then x else lo + (resolvedRun l lo).length := by
  induction l generalizing lo x with
  | nil => simp [resolvedRun]
  | cons hd tl ih =>
    cases hd with
    | none => simp [resolvedRun]
    | some v =>
      rw [resolvedRun]
      rw [if_neg (List.cons_ne_nil _ _)]
      simp only [List.foldl_cons, List.length_cons, ih (lo + 1) (lo + 1)]
      split
      · rename_i he
        simp [he]
      · omega

theorem decisionsFrom_mem (dec : Decisions) (lo : Nat) (s : Nat) (bv : Bytes)
    (hp : (s, bv) ∈ decisionsFrom dec lo) :
    lo ≤ s ∧ dec[s]? = some (some bv) ∧
      ∀ k, lo ≤ k → k ≤ s → resolvedAt dec k = true := by
  obtain ⟨i, hi1, hi2, hi3⟩ := resolvedRun_shape (dec.drop lo) lo s bv hp
  rw [List.getElem?_drop] at hi2
  refine ⟨by omega, by rw [hi1]; exact hi2, ?_⟩
  intro k hk1 hk2
  obtain ⟨w, hw⟩ := hi3 (k - lo) (by omega)
  rw [List.getElem?_drop] at hw
  have hkk : lo + (k - lo) = k := by omega
  rw [hkk] at hw
  simp [resolvedAt, hw]

theorem decisionsFrom_length_stop (dec : Decisions) (lo : Nat) :
    resolvedAt dec (lo + (decisionsFrom dec lo).length) = false := by
  unfold resolvedAt
  rw [← List.getElem?_drop]
  rcases h : (dec.drop lo)[(decisionsFrom dec lo).length]? with - | v
  · rfl
  · cases v with
    | none => rfl
    | some w => exact absurd h (resolvedRun_stop (dec.drop lo) lo w)

theorem tryExecuteSlots_next (dec : Decisions) (s : SMReplica) :
    (tryExecuteSlots dec s).1.nextExecutionSlot =
      s.nextExecutionSlot + (decisionsFrom dec s.nextExecutionSlot).length := by
  show (decisionsFrom dec s.nextExecutionSlot).foldl (fun _ p => p.1 + 1)
      s.nextExecutionSlot = _
  rw [decisionsFrom, resolvedRun_foldl]
  split
  · rename_i he
    rw [he]
    simp
  · rfl

theorem tryExecuteSlots_trace (dec : Decisions) (s : SMReplica) :
    (tryExecuteSlots dec s).2 =
      (decisionsFrom dec s.nextExecutionSlot).filter (fun p => !p.2.isEmpty) := rfl

theorem tryExecuteSlots_bounds (dec : Decisions) (s : SMReplica) :
    s.nextExecutionSlot ≤ (tryExecuteSlots dec s).1.nextExecutionSlot ∧
    (∀ p ∈ (tryExecuteSlots dec s).2,
        s.nextExecutionSlot ≤ p.1 ∧ p.1 < (tryExecuteSlots dec s).1.nextExecutionSlot) ∧
    (tryExecuteSlots dec s).2.Pairwise (fun a b => a.1 < b.1) := by
  refine ⟨?_, fun p hp => ?_, ?_⟩
  · rw [tryExecuteSlots_next]
    exact Nat.le_add_right _ _
  · rw [tryExecuteSlots_trace] at hp
    obtain ⟨ps, pv⟩ := p
    have hmem : (ps, pv) ∈ decisionsFrom dec s.nextExecutionSlot :=
      (List.mem_filter.mp hp).1
    refine ⟨resolvedRun_lower _ _ _ _ hmem, ?_⟩
    rw [tryExecuteSlots_next]
    exact resolvedRun_upper _ _ _ _ hmem
  · rw [tryExecuteSlots_trace]
    exact (resolvedRun_pairwise _ _).filter _

theorem smRun_bounds (steps : List Decisions) (s : SMReplica) :
    s.nextExecutionSlot ≤ (smRun steps s).1.nextExecutionSlot ∧
    (∀ p ∈ (smRun steps s).2,
        s.nextExecutionSlot ≤ p.1 ∧ p.1 < (smRun steps s).1.nextExecutionSlot) ∧
    (smRun steps s).2.Pairwise (fun a b => a.1 < b.1) := by
  induction steps generalizing s with
  | nil => simp [smRun]
  | cons d rest ih =>
    obtain ⟨h1, h2, h3⟩ := tryExecuteSlots_bounds d s
    obtain ⟨k1, k2, k3⟩ := ih (tryExecuteSlots d s).1
    refine ⟨by simpa [smRun] using le_trans h1 k1, ?_, ?_⟩
    · intro p hp
      obtain ⟨ps, pv⟩ := p
      simp only [smRun, List.mem_append] at hp
      rcases hp with hp | hp
      · obtain ⟨hl, hr⟩ := h2 (ps, pv) hp
        have hk : (smRun (d :: rest) s).1 = (smRun rest (tryExecuteSlots d s).1).1 := rfl
        rw [hk]
        exact ⟨hl, lt_of_lt_of_le hr k1⟩
      · obtain ⟨hl, hr⟩ := k2 (ps, pv) hp
        have hk : (smRun (d :: rest) s).1 = (smRun rest (tryExecuteSlots d s).1).1 := rfl
        rw [hk]
        exact ⟨le_trans h1 hl, hr⟩
    · show ((tryExecuteSlots d s).2 ++ (smRun rest (tryExecuteSlots d s).1).2).Pairwise _
      rw [List.pairwise_append]
      refine ⟨h3, k3, fun a ha b hb => ?_⟩
      obtain ⟨as2, av⟩ := a
      obtain ⟨bs2, bv⟩ := b
      have har := (h2 (as2, av) ha).2
      have hbl := (k2 (bs2, bv) hb).1
      show as2 < bs2
      omega

theorem smRun_append (a b : List Decisions) (s : SMReplica) :
    (smRun (a ++ b) s).1 = (smRun b (smRun a s).1).1 := by
  induction a generalizing s with
  | nil => simp [smRun]
  | cons d rest ih =>
    show (smRun (rest ++ b) (tryExecuteSlots d s).1).1 = _
    rw [ih]
    rfl

/-! ## Helper developments for the claims -/

theorem livenessRun_no_bump (T : Nat) :
    ∀ events : List LivenessEvent, (∀ e ∈ events, eventBumps e = false) →
      livenessRun events ⟨none, T⟩ = (⟨none, T⟩, false) := by
  intro events
  induction events with
  | nil => intro h; rfl
  | cons e es ih =>
      intro h
      have he := h e (List.mem_cons_self e es)
      have hes : ∀ x ∈ es, eventBumps x = false :=
        fun x hx => h x (List.mem_cons_of_mem e hx)
      cases e with
      | tick now leader m =>
          have ht : livenessTick now leader m ⟨none, T⟩ = (⟨none, T⟩, [.innerTick m]) := by
            cases leader <;> rfl
          simp [livenessRun, ht, proposedIn, ih hes]
      | recv now cmd m =>
          have hb : livenessBumps cmd = false := he
          have hr : (livenessReceive now cmd m ⟨none, T⟩).1 = ⟨none, T⟩ := by
            simp [livenessReceive, hb]
          simp only [livenessRun, hr]
          exact ih hes

/-! ## Claim theorems -/

/-- Claim C1: every StateMachineReplica receive forwards the command with
its metas to the inner replica and then scans the decisions view from
next_execution_slot upward in slot order: the executed trace is exactly the
non-empty decisions of the contiguous resolved run, resolved empty slots are
counted for advancement without being executed, every scanned slot is
resolved with the listed value and has no unresolved slot before it in the
scan, and the scan stops at the first slot that is not resolved. -/
theorem smReceive_executes_contiguous_decisions
    (dec : Decisions) (cmd : Command) (metas : CommandMetas) (s : SMReplica) :
    (smReceive dec cmd metas s).2.2 = (cmd, metas) ∧
    (smReceive dec cmd metas s).2.1 =
      (decisionsFrom dec s.nextExecutionSlot).filter (fun p => !p.2.isEmpty) ∧
    (smReceive dec cmd metas s).1.nextExecutionSlot =
      s.nextExecutionSlot + (decisionsFrom dec s.nextExecutionSlot).length ∧
    (∀ p ∈ decisionsFrom dec s.nextExecutionSlot,
        dec[p.1]? = some (some p.2) ∧
        ∀ k, s.nextExecutionSlot ≤ k → k ≤ p.1 → resolvedAt dec k = true) ∧
    resolvedAt dec
      (s.nextExecutionSlot + (decisionsFrom dec s.nextExecutionSlot).length) = false := by
  refine ⟨rfl, rfl, tryExecuteSlots_next dec s, fun p hp => ?_,
    decisionsFrom_length_stop dec s.nextExecutionSlot⟩
  obtain ⟨ps, pv⟩ := p
  obtain ⟨-, h2, h3⟩ := decisionsFrom_mem dec s.nextExecutionSlot ps pv hp
  exact ⟨h2, h3⟩

/-- Witness for C1: decision state with a resolved non-empty slot 0, a
resolved empty slot 1, a hole at slot 2 and a resolved slot 3; the receive
advances next_execution_slot to 2 and halts at the hole. -/
theorem smReceive_executes_contiguous_decisions_witness :
    (smReceive [some [(104 : Byte)], some [], none, some [(105 : Byte)]]
        (.proposal []) [] ⟨0⟩).1.nextExecutionSlot = 2 ∧
    resolvedAt [some [(104 : Byte)], some [], none, some [(105 : Byte)]] 1 = true ∧
    resolvedAt [some [(104 : Byte)], some [], none, some [(105 : Byte)]] 2 = false := by
  have h := smReceive_executes_contiguous_decisions
    [some [(104 : Byte)], some [], none, some [(105 : Byte)]] (.proposal []) [] ⟨0⟩
  refine ⟨?_, ?_, ?_⟩
  · rw [h.2.2.1]
    decide
  · exact (h.2.2.2.1 (1, []) (by decide)).2 1 (by decide) (by decide)
  · exact (by decide :
      ((⟨0⟩ : SMReplica).nextExecutionSlot +
        (decisionsFrom [some [(104 : Byte)], some [], none, some [(105 : Byte)]]
          (⟨0⟩ : SMReplica).nextExecutionSlot).length) = 2) ▸ h.2.2.2.2

/-- Claim C2: across any sequence of receive calls on a StateMachineReplica,
next_execution_slot never decreases (against the start state and along any
prefix of the sequence), the slots passed to execute are strictly increasing
across the whole trace, and no slot is executed more than once. -/
theorem smRun_execution_monotone_exactly_once (steps : List Decisions) (s : SMReplica) :
    s.nextExecutionSlot ≤ (smRun steps s).1.nextExecutionSlot ∧
    (∀ pre suf : List Decisions,
        (smRun pre s).1.nextExecutionSlot ≤ (smRun (pre ++ suf) s).1.nextExecutionSlot) ∧
    (smRun steps s).2.Pairwise (fun a b => a.1 < b.1) ∧
    ((smRun steps s).2.map Prod.fst).Nodup := by
  obtain ⟨h1, -, h3⟩ := smRun_bounds steps s
  refine ⟨h1, fun pre suf => ?_, h3, ?_⟩
  · rw [smRun_append]
    exact (smRun_bounds suf (smRun pre s).1).1
  · exact List.Pairwise.map Prod.fst (fun a b hab => Nat.ne_of_lt hab) h3

/-- Claim C5: Liveness receive bumps the leader-election timer exactly when
the received command is neither a Proposal nor a Catchup, always forwards
the command and metas unchanged to the inner replica, and any sequence of
Proposal receives leaves the timer in its prior state. -/
theorem livenessReceive_bump_policy :
    (∀ now cmd metas t,
        (livenessReceive now cmd metas t).2 = (cmd, metas) ∧
        (livenessReceive now cmd metas t).1 =
          (if cmd.isProposal || cmd.isCatchup then t else t.bump now) ∧
        livenessBumps cmd = (!(cmd.isProposal || cmd.isCatchup))) ∧
    (∀ ps : List (Nat × Bytes × CommandMetas), ∀ t : Timeout,
        receiveAll (ps.map (fun e => (e.1, Command.proposal e.2.1, e.2.2))) t = t) := by
  constructor
  · intro now cmd metas t
    refine ⟨rfl, ?_, ?_⟩ <;> cases cmd <;>
      simp [livenessReceive, livenessBumps, Command.isProposal, Command.isCatchup]
  · intro ps
    induction ps with
    | nil => intro t; rfl
    | cons e es ih => intro t; exact ih t

/-- Claim C6: on a Liveness tick over a bumped timer, propose_leadership
fires exactly when strictly more than the full timeout has passed since the
bump for a non-leader and strictly more than half the timeout for the
leader; on firing the timer is cleared and the propose precedes the inner
tick; the inner tick is always the final inner call; the timeout built by
Liveness::new is two seconds (2000 milliseconds). -/
theorem livenessTick_timeout_policy :
    (∀ l T now leader metas,
        livenessTick now leader metas ⟨some l, T⟩ =
          if (if leader then now > l + T / 2 else now > l + T) then
            (⟨none, T⟩, [LivenessCall.propose metas, LivenessCall.innerTick metas])
          else (⟨some l, T⟩, [LivenessCall.innerTick metas])) ∧
    (∀ t now leader metas,
        ((livenessTick now leader metas t).2).getLast? =
          some (.innerTick metas)) ∧
    livenessNewTimer.timeout = 2000 := by
  refine ⟨?_, ?_, rfl⟩
  · intro l T now leader metas
    cases leader with
    | false =>
        by_cases h : now > l + T <;>
          simp [livenessTick, Timeout.lapsed, Timeout.clear, h]
    | true =>
        by_cases h : now > l + T / 2 <;>
          simp [livenessTick, Timeout.near, Timeout.clear, h]
  · intro t now leader metas
    rw [livenessTick]
    split <;> split <;> rfl

/-- Claim C7: serializing any Command to JSON and deserializing yields the
original command; the serialized form is an object tagged by the
messageName field; every ballot is encoded as the two-element array of
round and node id; byte payloads are encoded as arrays of numbers below a
256 bound (unsigned 8-bit integers). -/
theorem command_json_roundtrip_and_shape :
    (∀ c, decodeCommand (encodeCommand c) = some c) ∧
    (∀ c, ∃ nm payload, encodeCommand c =
        .obj [("messageName", .str nm), ("payload", payload)]) ∧
    (∀ b, encBallot b = .arr [.num b.round, .num b.node]) ∧
    (∀ bs : Bytes, encBytes bs = .arr (bs.map fun b => .num b.val) ∧
        ∀ b ∈ bs, b.val < 256) := by
  refine ⟨decodeCommand_encodeCommand, fun c => ?_, fun b => rfl,
    fun bs => ⟨rfl, fun b hb => b.isLt⟩⟩
  rcases c with p | b | ⟨n, b, acc⟩ | ⟨b, svs⟩ | ⟨n, b1, b2⟩ | ⟨n, b, ss⟩ |
    ⟨b, svs⟩ | ⟨n, ss⟩ <;> exact ⟨_, _, rfl⟩

/-- Claim C9: CommandMetas is opaque to the wrapper layers: Liveness receive
and StateMachineReplica receive forward the command together with the given
metas, and the wrapper state they produce (the timer, next_execution_slot
and the execution trace) is identical for any two metas values. -/
theorem metas_opaque_in_wrappers :
    (∀ now cmd (m1 m2 : CommandMetas) (t : Timeout),
        (livenessReceive now cmd m1 t).1 = (livenessReceive now cmd m2 t).1 ∧
        (livenessReceive now cmd m1 t).2 = (cmd, m1)) ∧
    (∀ dec cmd (m1 m2 : CommandMetas) (s : SMReplica),
        (smReceive dec cmd m1 s).1 = (smReceive dec cmd m2 s).1 ∧
        (smReceive dec cmd m1 s).2.1 = (smReceive dec cmd m2 s).2.1 ∧
        (smReceive dec cmd m1 s).2.2 = (cmd, m1)) :=
  ⟨fun _ _ _ _ _ => ⟨rfl, rfl⟩, fun _ _ _ _ _ => ⟨rfl, rfl, rfl⟩⟩

/-- Claim C10: while the Liveness timer holds no bump timestamp, lapsed and
near are both false; a freshly constructed Liveness holds no timestamp (and
a timeout-triggered propose clears back to none); hence any run of ticks
and non-bumping commands (Proposals and Catchups) from an empty timer never
invokes propose_leadership and ends with the timer still empty. -/
theorem liveness_no_propose_before_first_bump (T : Nat)
    (events : List LivenessEvent) (h : ∀ e ∈ events, eventBumps e = false) :
    (∀ now, Timeout.lapsed ⟨none, T⟩ now = false ∧
        Timeout.near ⟨none, T⟩ now = false) ∧
    livenessNewTimer.latestMessage = none ∧
    (∀ t : Timeout, t.clear.latestMessage = none) ∧
    livenessRun events ⟨none, T⟩ = (⟨none, T⟩, false) :=
  ⟨fun _ => ⟨rfl, rfl⟩, rfl, fun _ => rfl, livenessRun_no_bump T events h⟩

/-- Witness for C10: a leader tick, a Proposal receive and a late follower
tick never propose leadership while the timer is empty. -/
theorem liveness_no_propose_before_first_bump_witness :
    livenessRun
      [LivenessEvent.tick 5000 true [], LivenessEvent.recv 6000 (.proposal [(104 : Byte)]) [],
        LivenessEvent.tick 9000 false []] ⟨none, 2000⟩ = (⟨none, 2000⟩, false) :=
  (liveness_no_propose_before_first_bump 2000
    [LivenessEvent.tick 5000 true [], LivenessEvent.recv 6000 (.proposal [(104 : Byte)]) [],
      LivenessEvent.tick 9000 false []] (by decide)).2.2.2

/-- Claim C3 (documents the source bug): after recovery from a persisted
state at instance 3 the replica holds a resolved value, its highest applied
slot being 3; a Sync request from a peer at instance 1 passes the guard
(1 is strictly below the current instance 3), yet on_sync looks up the
snapshot at the current instance minus one (slot 2), finds nothing there
and sends no Catchup reply at all, instead of replying with the value of
the highest resolved slot as the claim requires. -/
theorem onSync_recovered_replies_nothing :
    recoveredState.inst = 3 ∧
    highestResolvedSM recoveredState.stateMachine = some (3, [(104 : Byte)]) ∧
    snapshotSM recoveredState.stateMachine 2 = none ∧
    onSync recoveredState 7 1 = some (recoveredState, []) :=
  ⟨rfl, rfl, rfl, rfl⟩

/-- Claim C4: each of on_prepare, on_promise, on_accept, on_accepted and
on_reject leaves the entire replica state (state machine, persisted state,
current instance, PaxosInstance and both timers) unchanged and emits no
downstream messages when the message instance differs from the current
instance. -/
theorem mp_handlers_ignore_other_instances (P : Type) (ops : PaxosOps P)
    (peers : List NodeId) (st : MPState P) (peer i : Nat) (h : i ≠ st.inst) :
    (∀ p, onPrepare ops st peer i p = (st, [])) ∧
    (∀ pr, onPromise ops peers st peer i pr = (st, [])) ∧
    (∀ a, onAccept ops peers st peer i a = (st, [])) ∧
    (∀ a, onAccepted ops st peer i a = (st, [])) ∧
    (∀ r, onReject ops peers st peer i r = (st, [])) := by
  have hne : st.inst ≠ i := Ne.symm h
  refine ⟨fun p => ?_, fun pr => ?_, fun a => ?_, fun a => ?_, fun r => ?_⟩
  · simp [onPrepare, hne]
  · simp [onPromise, hne]
  · simp [onAccept, hne]
  · simp [onAccepted, hne]
  · simp [onReject, hne]

/-- Witness for C4: a replica at instance 3 ignores messages carrying
instance 5. -/
theorem mp_handlers_ignore_other_instances_witness :
    onPrepare trivOps (mpNew trivOps ⟨3, none, none, none⟩) 7 5 ⟨1, 2⟩ =
      (mpNew trivOps ⟨3, none, none, none⟩, []) ∧
    onAccepted trivOps (mpNew trivOps ⟨3, none, none, none⟩) 7 5 (⟨1, 2⟩, []) =
      (mpNew trivOps ⟨3, none, none, none⟩, []) := by
  have h := mp_handlers_ignore_other_instances Unit trivOps []
    (mpNew trivOps ⟨3, none, none, none⟩) 7 5 (by decide)
  exact ⟨h.1 ⟨1, 2⟩, h.2.2.2.1 (⟨1, 2⟩, [])⟩

/-- Claim C8: start_send returns Ok on every well-typed cluster message:
every handler is total, and in particular the current-instance-minus-one
subtraction in on_sync runs only under a guard putting the current instance
strictly above a peer instance (hence at least 1), and the instance-minus-
one subtraction in on_catchup runs only under a guard putting the message
instance strictly above the current instance (hence at least 1), so neither
checked subtraction underflows. -/
theorem startSend_total_no_underflow (P : Type) (ops : PaxosOps P)
    (peers : List NodeId) (st : MPState P) (peer : NodeId) (msg : MPMessage) :
    (startSend ops peers st peer msg).isSome = true := by
  cases msg with
  | prepare i p => rfl
  | promise i p => rfl
  | accept i a => rfl
  | accepted i a => rfl
  | reject i r => rfl
  | sync i =>
      show (onSync st peer i).isSome = true
      rw [onSync]
      split
      · rfl
      · rename_i hle
        have h1 : 1 ≤ st.inst := by omega
        rw [checkedSub, if_pos h1]
        show (match snapshotSM st.stateMachine (st.inst - 1) with
          | some v => some (st, [(peer, MPMessage.catchup st.inst v)])
          | none => some (st, [])).isSome = true
        cases snapshotSM st.stateMachine (st.inst - 1) <;> rfl
  | catchup i v =>
      show (onCatchup ops st i v).isSome = true
      rw [onCatchup]
      split
      · rename_i hgt
        have h1 : 1 ≤ i := by omega
        rw [checkedSub, if_pos h1]
        rfl
      · rfl

/-- Witness for C7: the roundtrip at the Prepare command of the commands.rs
serialization test, and the byte bound at a concrete payload. -/
theorem command_json_roundtrip_and_shape_witness :
    decodeCommand (encodeCommand (.prepare ⟨123, 345⟩)) = some (.prepare ⟨123, 345⟩) ∧
    (104 : Byte).val < 256 :=
  ⟨command_json_roundtrip_and_shape.1 (.prepare ⟨123, 345⟩),
    (command_json_roundtrip_and_shape.2.2.2 [(104 : Byte)]).2 104 (by decide)⟩
